import Mathlib

/-!
Shallow embedding of the core of the `ibkr-auto-invest` auto-investment
engine, together with theorems settling the specification's claims.

Modelling conventions:
* JavaScript numbers that hold money, prices, rates and percentages are
  modelled as rationals (`ℚ`); `Math.floor` becomes `Int.floor` on `ℚ`.
* Possibly-missing or unparseable JSON fields are modelled as `Option`;
  `parseFloat(x) || 0` becomes `Option.getD · 0` (a field parsing to `0`
  yields `0` in both readings).
* Functions that can throw are modelled with `Except`; the outcomes of
  external HTTP calls are passed in explicitly as parameters, so every
  embedded operation is a pure function of its inputs and the scripted
  responses.
* Response-shape duck typing (`'id' in resp`, truthiness of fields) is
  modelled with `Option` fields (`none` = key absent / undefined).
* Structures only carry the fields that the embedded functions read.
-/

namespace AutoInvest

/-- Truthiness of a JS string field that may be absent: truthy iff present
and non-empty. -/
def strTruthy : Option String → Bool
  | some s => s ≠ ""
  | none => false

/-! ## `src/main/services/ibkr/secdef.ts` — what-if preview affordability -/

/-- What-if (order preview) response, `WhatIfResponse` in `secdef.ts`.
The numeric fields are strings in the API; here each carries the result of
`parseFloat`: `none` when the field is missing or unparseable (NaN). -/
structure WhatIfResponse where
  amountTotal : Option ℚ
  amountCommission : Option ℚ
  equityCurrent : Option ℚ
  equityAfter : Option ℚ
  error : Option String
deriving DecidableEq

/-- Result record of `canAffordOrder` in `secdef.ts`. -/
structure AffordCheck where
  canAfford : Bool
  reason : Option String
  orderTotal : ℚ
  currentEquity : ℚ
  equityAfter : ℚ
  bufferAmount : ℚ
  commission : ℚ
deriving DecidableEq

/-- `canAffordOrder` from `secdef.ts` (lines 276-322): an error field
short-circuits to not-affordable with zeroed numbers; otherwise
`bufferAmount = currentEquity * bufferPercent` and the order is affordable
iff `equityAfter >= bufferAmount`. -/
def canAffordOrder (w : WhatIfResponse) (bufferPercent : ℚ) : AffordCheck :=
  if strTruthy w.error then
    { canAfford := false
      reason := w.error
      orderTotal := 0
      currentEquity := 0
      equityAfter := 0
      bufferAmount := 0
      commission := 0 }
  else
    let orderTotal := w.amountTotal.getD 0
    let currentEquity := w.equityCurrent.getD 0
    let equityAfter := w.equityAfter.getD 0
    let commission := w.amountCommission.getD 0
    let bufferAmount := currentEquity * bufferPercent
    let minimumEquityRequired := bufferAmount
    let canAfford : Bool := equityAfter ≥ minimumEquityRequired
    { canAfford := canAfford
      reason := if canAfford then none
                else some "Insufficient funds after applying safety buffer"
      orderTotal := orderTotal
      currentEquity := currentEquity
      equityAfter := equityAfter
      bufferAmount := bufferAmount
      commission := commission }

/-! ## Positions accessor (`getAllPositions`, unnamed portfolio module) -/

/-- A held position; only the fields the embedded code reads are kept
(`conid`, `position`, `mktPrice`, `mktValue`, `currency`, `ticker`). -/
structure Position where
  conid : ℤ
  position : ℚ
  mktPrice : ℚ
  mktValue : ℚ
  currency : String
  ticker : Option String
deriving DecidableEq

/-- The paginated `positions/{page}` endpoint is modelled as a function from
page id to the page's entries.  `getAllPositionsAux pages start fuel` is the
`while (hasMore)` loop of `getAllPositions`, begun at page `start`; `fuel`
bounds the number of loop iterations we are willing to unfold, and `none`
means the loop had not terminated after `fuel` iterations (the source loop
has no cap of its own). -/
def getAllPositionsAux (pages : ℕ → List Position) :
    ℕ → ℕ → Option (List Position)
  | _, 0 => none
  | start, fuel + 1 =>
    let positions := pages start
    if positions.length = 0 then
      some []
    else if positions.length < 30 then
      some positions
    else
      match getAllPositionsAux pages (start + 1) fuel with
      | some rest => some (positions ++ rest)
      | none => none

/-- `getAllPositions(accountId)` starting from page 0. -/
def getAllPositions (pages : ℕ → List Position) (fuel : ℕ) :
    Option (List Position) :=
  getAllPositionsAux pages 0 fuel

/-! ## `src/main/services/ibkr/client.ts` — gateway request with redirects -/

/-- The wire-level response a single issued HTTP request comes back with. -/
structure HttpResponse where
  statusCode : Option ℕ
  location : Option String
  data : String
deriving DecidableEq

/-- Outcome of `ibkrRequest`: a resolved body (JSON parsing of the body is
not modelled) or a rejected `IBKRError (statusCode, message)`. -/
inductive IbkrResult where
  | ok (body : String)
  | err (statusCode : ℕ) (message : String)
deriving DecidableEq

/-- Truthiness of `res.statusCode`: present and non-zero. -/
def statusTruthy : Option ℕ → Bool
  | some s => s ≠ 0
  | none => false

/-- `makeRequest(url, redirectCount)` from `client.ts` (lines 33-107).
`responses c` is the response received by the request issued with redirect
count `c` (the counter increases by one per hop, so it indexes the issued
requests); `resolveUrl loc base` models `new URL(location, requestUrl)`.
A redirect is followed whenever the status code is truthy, in `[300, 400)`,
and a `Location` header is present; the cap rejects once the count
exceeds 5. -/
def makeRequest (responses : ℕ → HttpResponse)
    (resolveUrl : String → String → String) (url : String)
    (redirectCount : ℕ) : IbkrResult :=
  if _h : redirectCount > 5 then
    .err 0 "Too many redirects"
  else
    let res := responses redirectCount
    match res.location, statusTruthy res.statusCode,
        res.statusCode.getD 0 with
    | some location, true, code =>
      if 300 ≤ code ∧ code < 400 then
        makeRequest responses resolveUrl (resolveUrl location url)
          (redirectCount + 1)
      else if 200 ≤ code ∧ code < 300 then
        .ok res.data
      else
        .err (if code = 0 then 500 else code)
          (if res.data = "" then "Unknown error" else res.data)
    | none, true, code =>
      if 200 ≤ code ∧ code < 300 then
        .ok res.data
      else
        .err (if code = 0 then 500 else code)
          (if res.data = "" then "Unknown error" else res.data)
    | _, false, _ =>
      .err 500 (if res.data = "" then "Unknown error" else res.data)
termination_by 6 - redirectCount
decreasing_by omega

/-- `ibkrRequest` issues the initial request with redirect count 0. -/
def ibkrRequest (responses : ℕ → HttpResponse)
    (resolveUrl : String → String → String) (url : String) : IbkrResult :=
  makeRequest responses resolveUrl url 0

/-! ## `src/main/services/autoinvest/executor.ts` — analyzer -/

/-- Per-currency ledger entry; only `cashbalance` is read. -/
structure LedgerEntry where
  cashbalance : ℚ
deriving DecidableEq

/-- The account ledger: a map from currency code to its entry, modelled as
an association list. -/
def Ledger := List (String × LedgerEntry)

/-- `ledger['CCY']?.cashbalance || 0`. -/
def ledgerCash (ledger : Ledger) (currency : String) : ℚ :=
  match ledger.lookup currency with
  | some entry => entry.cashbalance
  | none => 0

/-- A user allocation from the allocation store: symbol, target percent and
an optional cached conid (`conid?: number`). -/
structure Allocation where
  symbol : String
  targetPercent : ℚ
  conid : Option ℤ
deriving DecidableEq

/-- `PositionAnalysis` record of `executor.ts`. -/
structure PositionAnalysis where
  symbol : String
  conid : ℤ
  currentShares : ℚ
  currentValueUSD : ℚ
  currentPercent : ℚ
  targetPercent : ℚ
  deviationPercent : ℚ
  sharesToBuy : ℤ
  estimatedCostUSD : ℚ
  pricePerShare : ℚ
deriving DecidableEq

/-- `PortfolioAnalysis` record of `executor.ts`. -/
structure PortfolioAnalysis where
  totalValueUSD : ℚ
  cashUSD : ℚ
  cashILS : ℚ
  ilsToUsdRate : ℚ
  positions : List PositionAnalysis
deriving DecidableEq

/-- `p.ticker?.toUpperCase() === allocation.symbol.toUpperCase()`: a `null`
ticker compares unequal to any string. -/
def tickerMatches (allocation : Allocation) (p : Position) : Bool :=
  match p.ticker with
  | some t => t.toUpper == allocation.symbol.toUpper
  | none => false

/-- `allocation.conid || position?.conid || 0` (JS `||` on numbers treats
`0` and `undefined` as falsy). -/
def conidFallback (allocConid : Option ℤ) (posConid : Option ℤ) : ℤ :=
  match allocConid with
  | some x => if x = 0 then posConid.getD 0 else x
  | none => posConid.getD 0

/-- The per-allocation body of the `for (const allocation of allocations)`
loop in `analyzePortfolio` (`executor.ts` lines 111-141). -/
def analyzeAllocation (totalValueUSD : ℚ) (positions : List Position)
    (allocation : Allocation) : PositionAnalysis :=
  let position := positions.find? (tickerMatches allocation)
  let currentValueUSD := (position.map Position.mktValue).getD 0
  let currentShares := (position.map Position.position).getD 0
  let pricePerShare := (position.map Position.mktPrice).getD 0
  let currentPercent :=
    if totalValueUSD > 0 then currentValueUSD / totalValueUSD * 100 else 0
  let targetPercent := allocation.targetPercent
  let deviationPercent := targetPercent - currentPercent
  let targetValueUSD := targetPercent / 100 * totalValueUSD
  let valueNeededUSD := targetValueUSD - currentValueUSD
  let sharesToBuy : ℤ :=
    if pricePerShare > 0 then Int.floor (valueNeededUSD / pricePerShare)
    else 0
  { symbol := allocation.symbol
    conid := conidFallback allocation.conid (position.map Position.conid)
    currentShares := currentShares
    currentValueUSD := currentValueUSD
    currentPercent := currentPercent
    targetPercent := targetPercent
    deviationPercent := deviationPercent
    sharesToBuy := max 0 sharesToBuy
    estimatedCostUSD := (max 0 sharesToBuy : ℤ) * pricePerShare
    pricePerShare := pricePerShare }

/-- `positions.reduce(...)` summing market values (both branches of the
currency conditional add `p.mktValue`). -/
def stocksValueUSD (positions : List Position) : ℚ :=
  positions.foldl
    (fun sum p =>
      if p.currency == "USD" then sum + p.mktValue else sum + p.mktValue) 0

/-- `analyzePortfolio` from `src/src/main/services/autoinvest/executor.ts`
(lines 73-150).  `rateResult` is the outcome of the
`getExchangeRate('ILS','USD')` call: `.ok rate` on success, `.error ()`
when the call throws; the catch substitutes the hard-coded default `0.27`
and the analysis proceeds. -/
def analyzePortfolio (ledger : Ledger) (positions : List Position)
    (rateResult : Except Unit ℚ) (allocations : List Allocation) :
    PortfolioAnalysis :=
  let ilsToUsdRate := match rateResult with
    | .ok rate => rate
    | .error _ => 27 / 100
  let cashUSD := ledgerCash ledger "USD"
  let cashILS := ledgerCash ledger "ILS"
  let cashILSinUSD := cashILS * ilsToUsdRate
  let totalValueUSD := stocksValueUSD positions + cashUSD + cashILSinUSD
  { totalValueUSD := totalValueUSD
    cashUSD := cashUSD
    cashILS := cashILS
    ilsToUsdRate := ilsToUsdRate
    positions := allocations.map (analyzeAllocation totalValueUSD positions) }

/-- `analyzePortfolio` from the second executor variant
(`src/unnamed/part_000` lines 232-308): the exchange-rate call's outcome is
`.error msg` when it throws (which propagates), `.ok none` when the reply
carries no usable rate (`!ilsToUsdRate`), `.ok (some rate)` otherwise; a
non-positive rate aborts the analysis with an error. -/
def analyzePortfolioStrict (ledger : Ledger) (positions : List Position)
    (rateResult : Except String (Option ℚ)) (allocations : List Allocation) :
    Except String PortfolioAnalysis :=
  match rateResult with
  | .error e => .error e
  | .ok none => .error "Failed to get valid ILS/USD exchange rate"
  | .ok (some ilsToUsdRate) =>
    if ilsToUsdRate ≤ 0 then
      .error "Failed to get valid ILS/USD exchange rate"
    else
      let cashUSD := ledgerCash ledger "USD"
      let cashILS := ledgerCash ledger "ILS"
      let cashILSinUSD := cashILS * ilsToUsdRate
      let totalValueUSD := stocksValueUSD positions + cashUSD + cashILSinUSD
      .ok { totalValueUSD := totalValueUSD
            cashUSD := cashUSD
            cashILS := cashILS
            ilsToUsdRate := ilsToUsdRate
            positions :=
              allocations.map (analyzeAllocation totalValueUSD positions) }

/-! ## `executor.ts` — plan builder -/

/-- The `reason` string of a planned order, with its numeric payloads
(string formatting such as `toFixed(1)` is not modelled):
`reachingTarget t` is "Reaching target allocation of t%", `fillFraction f`
is "Partial fill (f% of needed)". -/
inductive OrderReason where
  | reachingTarget (targetPercent : ℚ)
  | fillFraction (percentOfNeeded : ℚ)
deriving DecidableEq

/-- `PlannedOrder` record of `executor.ts`. -/
structure PlannedOrder where
  symbol : String
  conid : ℤ
  shares : ℤ
  estimatedCost : ℚ
  pricePerShare : ℚ
  priority : ℕ
  reason : OrderReason
deriving DecidableEq

/-- The three summary strings of `createAutoInvestPlan`, with the numeric
payloads of the investing one. -/
inductive PlanSummary where
  | noCashAvailable
  | planningToInvest (total : ℚ) (count : ℕ)
  | noOrdersNeeded
deriving DecidableEq

/-- `AutoInvestPlan` record of `executor.ts`. -/
structure AutoInvestPlan where
  totalAvailableUSD : ℚ
  ilsToConvert : ℚ
  ilsToUsdRate : ℚ
  ordersToPlace : List PlannedOrder
  summary : PlanSummary
deriving DecidableEq

/-- Stable insertion of `x` before the first element ranked strictly below
it by descending deviation; models one step of JS `Array.prototype.sort`
with comparator `(a, b) => b.deviationPercent - a.deviationPercent`
(a stable sort). -/
def insertByDeviationDesc (x : PositionAnalysis) :
    List PositionAnalysis → List PositionAnalysis
  | [] => [x]
  | y :: rest =>
    if y.deviationPercent ≥ x.deviationPercent then
      y :: insertByDeviationDesc x rest
    else
      x :: y :: rest

/-- Stable sort, descending by `deviationPercent`. -/
def sortByDeviationDesc : List PositionAnalysis → List PositionAnalysis
  | [] => []
  | x :: rest => insertByDeviationDesc x (sortByDeviationDesc rest)

/-- The filter-and-sort of `createAutoInvestPlan` (lines 176-178). -/
def underweightPositions (positions : List PositionAnalysis) :
    List PositionAnalysis :=
  sortByDeviationDesc (positions.filter fun p =>
    decide (p.deviationPercent > 0) && decide (p.sharesToBuy > 0) &&
      decide (p.pricePerShare > 0))

/-- Conid resolution inside the plan loop:
`let conid = position.conid; if (!conid) conid = (await findConid(...)) || 0`.
`resolve` scripts the outcome of `findConid` per symbol (`none` = null). -/
def resolvedConid (resolve : String → Option ℤ) (p : PositionAnalysis) : ℤ :=
  if p.conid = 0 then (resolve p.symbol).getD 0 else p.conid

/-- The greedy allocation walk of `createAutoInvestPlan` (`executor.ts`
lines 184-235): `i` is the loop index (priority is `i + 1`), the second
component of the result is the final remaining cash. -/
def buildOrders (resolve : String → Option ℤ) :
    List PositionAnalysis → ℕ → ℚ → List PlannedOrder × ℚ
  | [], _, remainingCash => ([], remainingCash)
  | position :: rest, i, remainingCash =>
    if remainingCash < position.pricePerShare then
      buildOrders resolve rest (i + 1) remainingCash
    else
      let maxSharesAffordable : ℤ :=
        Int.floor (remainingCash / position.pricePerShare)
      let sharesToReachTarget := position.sharesToBuy
      let sharesToBuy :=
        if maxSharesAffordable ≥ sharesToReachTarget then sharesToReachTarget
        else maxSharesAffordable
      let reason :=
        if maxSharesAffordable ≥ sharesToReachTarget then
          OrderReason.reachingTarget position.targetPercent
        else
          OrderReason.fillFraction
            ((sharesToBuy : ℚ) * position.pricePerShare /
              position.estimatedCostUSD * 100)
      if sharesToBuy > 0 then
        let cost := (sharesToBuy : ℚ) * position.pricePerShare
        let conid := resolvedConid resolve position
        if conid ≠ 0 then
          let order : PlannedOrder :=
            { symbol := position.symbol
              conid := conid
              shares := sharesToBuy
              estimatedCost := cost
              pricePerShare := position.pricePerShare
              priority := i + 1
              reason := reason }
          let remainingAfter := remainingCash - cost
          if remainingAfter < 10 then
            ([order], remainingAfter)
          else
            let next := buildOrders resolve rest (i + 1) remainingAfter
            (order :: next.1, next.2)
        else if remainingCash < 10 then
          ([], remainingCash)
        else
          buildOrders resolve rest (i + 1) remainingCash
      else if remainingCash < 10 then
        ([], remainingCash)
      else
        buildOrders resolve rest (i + 1) remainingCash

/-- `createAutoInvestPlan` from `executor.ts` (lines 155-249), as a pure
function of the analysis, the stored buffer percent and the scripted
`findConid` outcomes. -/
def createAutoInvestPlan (analysis : PortfolioAnalysis) (bufferPercent : ℚ)
    (resolve : String → Option ℤ) : AutoInvestPlan :=
  let ilsToConvert := analysis.cashILS
  let totalCashUSD := analysis.cashUSD + ilsToConvert * analysis.ilsToUsdRate
  let buffer := totalCashUSD * bufferPercent
  let availableUSD := totalCashUSD - buffer
  if availableUSD ≤ 0 then
    { totalAvailableUSD := 0
      ilsToConvert := ilsToConvert
      ilsToUsdRate := analysis.ilsToUsdRate
      ordersToPlace := []
      summary := .noCashAvailable }
  else
    let ordersToPlace :=
      (buildOrders resolve (underweightPositions analysis.positions) 0
        availableUSD).1
    let totalToInvest :=
      ordersToPlace.foldl (fun sum o => sum + o.estimatedCost) 0
    { totalAvailableUSD := availableUSD
      ilsToConvert := ilsToConvert
      ilsToUsdRate := analysis.ilsToUsdRate
      ordersToPlace := ordersToPlace
      summary :=
        if ordersToPlace.length > 0 then
          .planningToInvest totalToInvest ordersToPlace.length
        else
          .noOrdersNeeded }

/-! ## `executor.ts` — execution loop -/

/-- Status of one attempted order. -/
inductive OrderStatus where
  | success
  | failed
  | skipped
deriving DecidableEq

/-- `OrderResult` record of `executor.ts`. -/
structure OrderResult where
  symbol : String
  shares : ℤ
  status : OrderStatus
  message : String
  orderId : Option String
deriving DecidableEq

/-- One element of a `placeOrder` / `replyToOrder` response array, keeping
only the duck-typed fields the executor inspects (`none` = key absent;
`message` is an array, truthy in JS whenever present). -/
structure RespItem where
  id : Option String
  message : Option (List String)
  order_id : Option String
deriving DecidableEq

/-- The scripted outcomes of the three API calls one planned order can
make: `previewOrder`, `placeOrder` and `replyToOrder` (`.error` = the call
threw, its payload the error's string rendering). -/
structure OrderScript where
  preview : Except String WhatIfResponse
  place : Except String (List RespItem)
  reply : Except String (List RespItem)

/-- What one iteration of the executor's order loop contributes to the
accumulated state: an optional `OrderResult`, counter increments, the
invested amount and an optional entry for the `errors` list. -/
structure StepOutcome where
  result : Option OrderResult
  placedInc : ℕ
  failedInc : ℕ
  investedInc : ℚ
  errorMsg : Option String
deriving DecidableEq

/-- A step that touches nothing: no result is pushed and no counter moves
(the silent fall-through of the response-shape conditionals). -/
def silentStep : StepOutcome :=
  { result := none, placedInc := 0, failedInc := 0, investedInc := 0
    errorMsg := none }

/-- The body of `for (const plannedOrder of plan.ordersToPlace)` in
`executeAutoInvest` (`executor.ts` lines 277-350): preview, affordability
check, placement, optional confirmation round; a thrown error anywhere in
the try block yields a `failed` result. -/
def execOrder (bufferPercent : ℚ) (plannedOrder : PlannedOrder)
    (s : OrderScript) : StepOutcome :=
  let failedStep (e : String) : StepOutcome :=
    { result := some
        { symbol := plannedOrder.symbol
          shares := plannedOrder.shares
          status := .failed
          message := e
          orderId := none }
      placedInc := 0
      failedInc := 1
      investedInc := 0
      errorMsg := some
        ("Failed to place order for " ++ plannedOrder.symbol ++ ": " ++ e) }
  let successStep (orderId : String) : StepOutcome :=
    { result := some
        { symbol := plannedOrder.symbol
          shares := plannedOrder.shares
          status := .success
          message := "Order placed successfully"
          orderId := some orderId }
      placedInc := 1
      failedInc := 0
      investedInc := plannedOrder.estimatedCost
      errorMsg := none }
  match s.preview with
  | .error e => failedStep e
  | .ok preview =>
    let affordCheck := canAffordOrder preview bufferPercent
    if affordCheck.canAfford = false then
      { result := some
          { symbol := plannedOrder.symbol
            shares := plannedOrder.shares
            status := .skipped
            message := affordCheck.reason.getD "Insufficient funds"
            orderId := none }
        placedInc := 0
        failedInc := 0
        investedInc := 0
        errorMsg := none }
    else
      match s.place with
      | .error e => failedStep e
      | .ok orderResponse =>
        match orderResponse with
        | [] => silentStep
        | firstResponse :: _ =>
          if firstResponse.id.isSome && firstResponse.message.isSome then
            match s.reply with
            | .error e => failedStep e
            | .ok confirmResponse =>
              match confirmResponse with
              | [] => silentStep
              | confirmed :: _ =>
                match confirmed.order_id with
                | some orderId => successStep orderId
                | none => silentStep
          else
            match firstResponse.order_id with
            | some orderId => successStep orderId
            | none => silentStep

/-- `AutoInvestResult` record of `executor.ts` (the `currencyConversion`
field of the second variant and the ILS-conversion log block, which touch
no counter, are not modelled). -/
structure AutoInvestResult where
  success : Bool
  ordersPlaced : ℕ
  ordersFailed : ℕ
  totalInvested : ℚ
  results : List OrderResult
  errors : List String
deriving DecidableEq

/-- `executeAutoInvest` from `executor.ts` (lines 254-360) applied to an
already-built plan: the loop is a left-to-right pass whose iterations are
independent, so it is the aggregation of the per-order `StepOutcome`s;
`scripts k` scripts the API outcomes of the `k`-th planned order. -/
def executeAutoInvest (plan : AutoInvestPlan) (bufferPercent : ℚ)
    (scripts : ℕ → OrderScript) : AutoInvestResult :=
  let outcomes := plan.ordersToPlace.enum.map
    (fun kp => execOrder bufferPercent kp.2 (scripts kp.1))
  let ordersPlaced := (outcomes.map StepOutcome.placedInc).sum
  let ordersFailed := (outcomes.map StepOutcome.failedInc).sum
  { success := decide (ordersFailed = 0) && decide (ordersPlaced > 0)
    ordersPlaced := ordersPlaced
    ordersFailed := ordersFailed
    totalInvested := (outcomes.map StepOutcome.investedInc).sum
    results := outcomes.filterMap StepOutcome.result
    errors := outcomes.filterMap StepOutcome.errorMsg }

/-! ## Theorems -/

/-- C2: `canAffordOrder` is a pure function of the what-if response and the
buffer percent: the returned `bufferAmount` is `currentEquity * bufferPercent`,
`canAfford` is true iff the error field is not truthy and the projected
equity after the trade is at least the buffer amount; in particular with
`equity.current = 10000` and buffer `0.05`, `equity.after = 400` is not
affordable and `equity.after = 600` is, and a truthy (non-empty) error
field always yields `canAfford = false`. -/
theorem canAffordOrder_pure (w : WhatIfResponse) (b : ℚ) :
    (canAffordOrder w b).bufferAmount = (canAffordOrder w b).currentEquity * b
    ∧ ((canAffordOrder w b).canAfford
        = (!strTruthy w.error
            && decide (w.equityCurrent.getD 0 * b ≤ w.equityAfter.getD 0)))
    ∧ (strTruthy w.error = true → (canAffordOrder w b).canAfford = false)
    ∧ (canAffordOrder
        ⟨some 500, some 1, some 10000, some 400, none⟩ (5/100)).canAfford
        = false
    ∧ (canAffordOrder
        ⟨some 500, some 1, some 10000, some 600, none⟩ (5/100)).canAfford
        = true := by
  refine ⟨?_, ?_, ?_, ?_, ?_⟩
  · by_cases h : strTruthy w.error <;> simp [canAffordOrder, h]
  · by_cases h : strTruthy w.error <;> simp [canAffordOrder, h, ge_iff_le]
  · intro h; simp [canAffordOrder, h]
  · norm_num [canAffordOrder, strTruthy]
  · norm_num [canAffordOrder, strTruthy]

/-- Witness for C2: a preview carrying a non-empty error field is judged
not affordable. -/
theorem canAffordOrder_pure_witness :
    (canAffordOrder ⟨none, none, none, none, some "bad order"⟩ 3).canAfford
      = false :=
  (canAffordOrder_pure ⟨none, none, none, none, some "bad order"⟩ 3).2.2.1
    (by decide)

/-- C10: a what-if response without a truthy error field whose numeric
fields are all missing or unparseable is treated as all zeros, so
`bufferAmount = 0` and `canAfford = true` (`0 ≥ 0`), for every buffer
percent. -/
theorem canAffordOrder_malformed (b : ℚ) (err : Option String)
    (h : strTruthy err = false) :
    canAffordOrder ⟨none, none, none, none, err⟩ b
      = { canAfford := true, reason := none, orderTotal := 0,
          currentEquity := 0, equityAfter := 0, bufferAmount := 0,
          commission := 0 } := by
  simp [canAffordOrder, h]

/-- Witness for C10 at a concrete buffer percent. -/
theorem canAffordOrder_malformed_witness :
    canAffordOrder ⟨none, none, none, none, none⟩ 7
      = { canAfford := true, reason := none, orderTotal := 0,
          currentEquity := 0, equityAfter := 0, bufferAmount := 0,
          commission := 0 } :=
  canAffordOrder_malformed 7 none rfl

/-- C6 counterexample: the `executor.ts` variant of `analyzePortfolio`
does not fail when the exchange-rate fetch throws; it proceeds with the
hard-coded default rate `0.27` and produces an ordinary analysis. -/
theorem analyzePortfolio_fallback_cex :
    analyzePortfolio [] [] (.error ()) []
      = { totalValueUSD := 0, cashUSD := 0, cashILS := 0,
          ilsToUsdRate := 27 / 100, positions := [] } := by
  norm_num [analyzePortfolio, ledgerCash, stocksValueUSD]

/-- C6 (amended): the `part_000` variant aborts the analysis whenever the
exchange-rate fetch throws, returns no usable rate, or returns a
non-positive rate, and proceeds exactly when the rate is positive; the
`executor.ts` variant never aborts: a throwing fetch falls back to the
default rate `0.27` and a fetched rate is used as-is. -/
theorem exchangeRate_policy (ledger : Ledger) (positions : List Position)
    (allocations : List Allocation) :
    (∀ e, analyzePortfolioStrict ledger positions (.error e) allocations
        = .error e)
    ∧ (analyzePortfolioStrict ledger positions (.ok none) allocations
        = .error "Failed to get valid ILS/USD exchange rate")
    ∧ (∀ rate : ℚ, rate ≤ 0 →
        analyzePortfolioStrict ledger positions (.ok (some rate)) allocations
          = .error "Failed to get valid ILS/USD exchange rate")
    ∧ (∀ rate : ℚ, 0 < rate → ∃ analysis,
        analyzePortfolioStrict ledger positions (.ok (some rate)) allocations
          = .ok analysis ∧ analysis.ilsToUsdRate = rate)
    ∧ ((analyzePortfolio ledger positions (.error ()) allocations).ilsToUsdRate
        = 27 / 100)
    ∧ (∀ rate : ℚ,
        (analyzePortfolio ledger positions (.ok rate) allocations).ilsToUsdRate
          = rate) := by
  refine ⟨fun e => rfl, rfl, ?_, ?_, rfl, fun rate => rfl⟩
  · intro rate h
    simp [analyzePortfolioStrict, h]
  · intro rate h
    simp only [analyzePortfolioStrict]
    rw [if_neg (not_le.mpr h)]
    exact ⟨_, rfl, rfl⟩

/-- Witness for C6's amended statement: a fetched rate of `0` aborts the
strict variant. -/
theorem exchangeRate_policy_witness :
    analyzePortfolioStrict [] [] (.ok (some 0)) []
      = .error "Failed to get valid ILS/USD exchange rate" :=
  (exchangeRate_policy [] [] []).2.2.1 0 le_rfl

/-- The per-allocation analysis clamps `sharesToBuy` at zero and floors the
raw share count when the price is positive. -/
theorem analyzeAllocation_sharesToBuy (T : ℚ) (ps : List Position)
    (a : Allocation) :
    (0 < (analyzeAllocation T ps a).pricePerShare →
      (analyzeAllocation T ps a).sharesToBuy
        = max 0 (Int.floor (((analyzeAllocation T ps a).targetPercent / 100 * T
            - (analyzeAllocation T ps a).currentValueUSD) /
            (analyzeAllocation T ps a).pricePerShare)))
    ∧ (¬ 0 < (analyzeAllocation T ps a).pricePerShare →
        (analyzeAllocation T ps a).sharesToBuy = 0)
    ∧ 0 ≤ (analyzeAllocation T ps a).sharesToBuy := by
  refine ⟨?_, ?_, ?_⟩
  · intro h
    simp only [analyzeAllocation] at h ⊢
    rw [if_pos h]
  · intro h
    simp only [analyzeAllocation] at h ⊢
    rw [if_neg h]
    simp
  · simp only [analyzeAllocation]
    exact le_max_left 0 _

/-- C3: every `PositionAnalysis` produced by `analyzePortfolio` has
`sharesToBuy = max(0, floor((targetPercent/100 * totalValue - currentValue)
/ pricePerShare))` when the price is positive and `0` otherwise, hence
`sharesToBuy ≥ 0` always. -/
theorem analyzePortfolio_sharesToBuy_clamped (ledger : Ledger)
    (positions : List Position) (rateResult : Except Unit ℚ)
    (allocations : List Allocation) (pa : PositionAnalysis)
    (hpa : pa ∈ (analyzePortfolio ledger positions rateResult
        allocations).positions) :
    (0 < pa.pricePerShare →
      pa.sharesToBuy = max 0 (Int.floor ((pa.targetPercent / 100 *
        (analyzePortfolio ledger positions rateResult allocations).totalValueUSD
          - pa.currentValueUSD) / pa.pricePerShare)))
    ∧ (¬ 0 < pa.pricePerShare → pa.sharesToBuy = 0)
    ∧ 0 ≤ pa.sharesToBuy := by
  have hmap : (analyzePortfolio ledger positions rateResult
      allocations).positions
      = allocations.map (analyzeAllocation
          (analyzePortfolio ledger positions rateResult
            allocations).totalValueUSD positions) := rfl
  rw [hmap] at hpa
  obtain ⟨a, _, rfl⟩ := List.mem_map.1 hpa
  exact analyzeAllocation_sharesToBuy _ positions a

/-- Concrete ledger: $800 cash. -/
def exLedger : Ledger := [("USD", ⟨800⟩)]

/-- Concrete held position: 2 shares of VOO at $100, worth $200. -/
def exPositions : List Position :=
  [{ conid := 1, position := 2, mktPrice := 100, mktValue := 200,
     currency := "USD", ticker := some "VOO" }]

/-- Concrete allocation: 50% VOO, no cached conid. -/
def exAllocations : List Allocation :=
  [{ symbol := "VOO", targetPercent := 50, conid := none }]

/-- The analysis of the concrete inputs (rate fetched as 1). -/
def exAnalysis : PortfolioAnalysis :=
  analyzePortfolio exLedger exPositions (.ok 1) exAllocations

/-- The one `PositionAnalysis` the concrete analysis produces. -/
def exPA : PositionAnalysis :=
  analyzeAllocation exAnalysis.totalValueUSD exPositions
    { symbol := "VOO", targetPercent := 50, conid := none }

/-- Witness for C3: on the concrete inputs the clamped floor formula is
realized (total $1000, target 50%, current $200, price $100: 3 shares). -/
theorem analyzePortfolio_sharesToBuy_clamped_witness :
    exPA.sharesToBuy
      = max 0 (Int.floor ((exPA.targetPercent / 100 * exAnalysis.totalValueUSD
          - exPA.currentValueUSD) / exPA.pricePerShare)) :=
  (analyzePortfolio_sharesToBuy_clamped exLedger exPositions (.ok 1)
      exAllocations exPA (List.Mem.head _)).1
    (by norm_num [exPA, exAnalysis, analyzePortfolio, analyzeAllocation,
      exPositions, tickerMatches, ledgerCash, stocksValueUSD])

/-- The concatenation of `n` pages starting at page `start`, in order. -/
def pagesConcat (pages : ℕ → List Position) (start : ℕ) : ℕ → List Position
  | 0 => []
  | n + 1 => pages start ++ pagesConcat pages (start + 1) n

/-- If the first short page after `start` is `start + N`, the paging loop
returns the concatenation of those `N + 1` pages as soon as the allowed
iteration count exceeds `N`. -/
theorem getAllPositionsAux_terminates (pages : ℕ → List Position) :
    ∀ (fuel start N : ℕ),
    (pages (start + N)).length < 30 →
    (∀ m < N, ¬((pages (start + m)).length < 30)) →
    N < fuel →
    getAllPositionsAux pages start fuel
      = some (pagesConcat pages start (N + 1)) := by
  intro fuel
  induction fuel with
  | zero => intro start N _ _ h; omega
  | succ fuel ih =>
    intro start N hshort hfull hlt
    by_cases h0 : (pages start).length = 0
    · have hN : N = 0 := by
        by_contra hne
        exact hfull 0 (Nat.pos_of_ne_zero hne) (by simp [h0])
      subst hN
      simp only [getAllPositionsAux, h0, if_pos rfl]
      simp [pagesConcat, List.length_eq_zero.mp h0]
    · by_cases h1 : (pages start).length < 30
      · have hN : N = 0 := by
          by_contra hne
          exact hfull 0 (Nat.pos_of_ne_zero hne) (by simpa using h1)
        subst hN
        simp [getAllPositionsAux, h0, h1, pagesConcat]
      · have hN : N ≠ 0 := by
          intro hz
          subst hz
          simp only [Nat.add_zero] at hshort
          exact h1 hshort
        obtain ⟨N', rfl⟩ := Nat.exists_eq_succ_of_ne_zero hN
        have hshort' : (pages (start + 1 + N')).length < 30 := by
          have : start + 1 + N' = start + (N' + 1) := by omega
          rw [this]; exact hshort
        have hfull' : ∀ m < N', ¬((pages (start + 1 + m)).length < 30) := by
          intro m hm
          have : start + 1 + m = start + (m + 1) := by omega
          rw [this]
          exact hfull (m + 1) (by omega)
        have := ih (start + 1) N' hshort' hfull' (by omega)
        simp [getAllPositionsAux, h0, h1, this, pagesConcat]

/-- If no short page occurs within the allowed iteration count, the paging
loop is still running (the loop has no cap of its own). -/
theorem getAllPositionsAux_spins (pages : ℕ → List Position) :
    ∀ (fuel start : ℕ),
    (∀ m < fuel, ¬((pages (start + m)).length < 30)) →
    getAllPositionsAux pages start fuel = none := by
  intro fuel
  induction fuel with
  | zero => intro start _; rfl
  | succ fuel ih =>
    intro start hfull
    have h0 : ¬((pages start).length = 0) := by
      intro h
      exact hfull 0 (Nat.succ_pos _) (by simp [h])
    have h1 : ¬((pages start).length < 30) := by
      simpa using hfull 0 (Nat.succ_pos _)
    have := ih (start + 1) (fun m hm => by
      have : start + 1 + m = start + (m + 1) := by omega
      rw [this]
      exact hfull (m + 1) (by omega))
    simp [getAllPositionsAux, h0, h1, this]

/-- C7: when page `N` is the first empty-or-short page (fewer than 30
entries), `getAllPositions` returns exactly the in-order concatenation of
pages `0 .. N` for every iteration allowance above `N`, and has not
terminated within any allowance of at most `N` iterations: the loop stops
precisely at the first short or empty page and at nothing else. -/
theorem getAllPositions_concat (pages : ℕ → List Position) (N : ℕ)
    (hshort : (pages N).length < 30)
    (hfull : ∀ m < N, ¬((pages m).length < 30)) :
    (∀ fuel, N < fuel →
      getAllPositions pages fuel = some (pagesConcat pages 0 (N + 1)))
    ∧ (∀ fuel, fuel ≤ N → getAllPositions pages fuel = none) := by
  constructor
  · intro fuel hf
    exact getAllPositionsAux_terminates pages fuel 0 N (by simpa)
      (by simpa using hfull) hf
  · intro fuel hf
    refine getAllPositionsAux_spins pages fuel 0 ?_
    intro m hm
    simpa using hfull m (lt_of_lt_of_le hm hf)

/-- A placeholder position for concrete pages. -/
def exPos : Position :=
  { conid := 0, position := 0, mktPrice := 0, mktValue := 0,
    currency := "USD", ticker := none }

/-- Concrete pages: page 0 is full (30 entries), page 1 is empty. -/
def exPages : ℕ → List Position := fun n =>
  if n = 0 then List.replicate 30 exPos else []

/-- Witness for C7: with a full page 0 and empty page 1, two iterations
return the concatenation of both pages. -/
theorem getAllPositions_concat_witness :
    getAllPositions exPages 2 = some (pagesConcat exPages 0 2) :=
  (getAllPositions_concat exPages 1 (by decide) (by decide)).1 2
    (by norm_num)

/-- A response the gateway client follows: any truthy status code in
`[300, 400)` together with a `Location` header. -/
def isRedirectResponse (r : HttpResponse) : Prop :=
  ∃ code, r.statusCode = some code ∧ 300 ≤ code ∧ code < 400 ∧
    r.location.isSome = true

/-- One followed hop: within the cap, a `[300, 400)` status with a
`Location` header re-issues the request at the resolved URL with the
counter increased. -/
theorem makeRequest_follow (responses : ℕ → HttpResponse)
    (resolveUrl : String → String → String) (url : String) (c : ℕ)
    (hc : c ≤ 5) (code : ℕ) (loc : String)
    (hsc : (responses c).statusCode = some code)
    (hl : (responses c).location = some loc)
    (h3 : 300 ≤ code) (h4 : code < 400) :
    makeRequest responses resolveUrl url c
      = makeRequest responses resolveUrl (resolveUrl loc url) (c + 1) := by
  have ht : statusTruthy (some code) = true := by
    simp only [statusTruthy, ne_eq, decide_eq_true_eq]
    omega
  rw [makeRequest]
  rw [dif_neg (by omega : ¬ c > 5)]
  simp only [hsc, hl, ht, Option.getD_some]
  rw [if_pos ⟨h3, h4⟩]

/-- The cap: a request whose redirect count exceeds 5 is rejected. -/
theorem makeRequest_cap (responses : ℕ → HttpResponse)
    (resolveUrl : String → String → String) (url : String) (c : ℕ)
    (hc : 5 < c) :
    makeRequest responses resolveUrl url c = .err 0 "Too many redirects" := by
  rw [makeRequest]
  rw [dif_pos hc]

/-- A 2xx response resolves with the body, whether or not a `Location`
header is present. -/
theorem makeRequest_ok (responses : ℕ → HttpResponse)
    (resolveUrl : String → String → String) (url : String) (c : ℕ)
    (hc : c ≤ 5) (code : ℕ)
    (hsc : (responses c).statusCode = some code)
    (h2 : 200 ≤ code) (h3 : code < 300) :
    makeRequest responses resolveUrl url c = .ok (responses c).data := by
  have ht : statusTruthy (some code) = true := by
    simp only [statusTruthy, ne_eq, decide_eq_true_eq]
    omega
  rw [makeRequest]
  rw [dif_neg (by omega : ¬ c > 5)]
  rcases hloc : (responses c).location with _ | loc
  · simp only [hsc, hloc, ht, Option.getD_some]
    rw [if_pos ⟨h2, h3⟩]
  · simp only [hsc, hloc, ht, Option.getD_some]
    rw [if_neg (by omega : ¬(300 ≤ code ∧ code < 400)), if_pos ⟨h2, h3⟩]

/-- A 3xx response without a `Location` header is not followed: it is
rejected as a typed error with its own status code. -/
theorem makeRequest_3xx_noLocation (responses : ℕ → HttpResponse)
    (resolveUrl : String → String → String) (url : String) (c : ℕ)
    (hc : c ≤ 5) (code : ℕ)
    (hsc : (responses c).statusCode = some code)
    (hloc : (responses c).location = none)
    (h3 : 300 ≤ code) (h4 : code < 400) :
    makeRequest responses resolveUrl url c
      = .err code
          (if (responses c).data = "" then "Unknown error"
           else (responses c).data) := by
  have ht : statusTruthy (some code) = true := by
    simp only [statusTruthy, ne_eq, decide_eq_true_eq]
    omega
  rw [makeRequest]
  rw [dif_neg (by omega : ¬ c > 5)]
  simp only [hsc, hloc, ht, Option.getD_some]
  rw [if_neg (by omega : ¬(200 ≤ code ∧ code < 300))]
  rw [if_neg (by omega : ¬ code = 0)]

/-- C8 counterexample: a `304` response carrying a `Location` header — a
status outside `{301, 302, 303, 307, 308}` — is followed: the request is
re-issued and the run resolves with the second response's body instead of
failing with a typed `304` error. -/
theorem ibkrRequest_follows_304_cex :
    ibkrRequest
      (fun n => if n = 0 then
          { statusCode := some 304, location := some "next", data := "" }
        else { statusCode := some 200, location := none, data := "ok" })
      (fun loc _ => loc) "start" = .ok "ok" := by
  have h1 := makeRequest_follow
    (fun n => if n = 0 then
        ({ statusCode := some 304, location := some "next", data := "" } :
          HttpResponse)
      else { statusCode := some 200, location := none, data := "ok" })
    (fun loc _ => loc) "start" 0 (by omega) 304 "next" rfl rfl (by omega)
    (by omega)
  have h2 := makeRequest_ok
    (fun n => if n = 0 then
        ({ statusCode := some 304, location := some "next", data := "" } :
          HttpResponse)
      else { statusCode := some 200, location := none, data := "ok" })
    (fun loc _ => loc) "next" 1 (by omega) 200 rfl (by omega) (by omega)
  exact h1.trans h2

/-- C8 (amended): the client follows every response whose status is truthy,
in `[300, 400)`, and carries a `Location` header (richer than the listed
`301/302/303/307/308`), re-issuing at the resolved URL, up to a hard cap of
5 redirect hops; six consecutive redirecting responses fail with the typed
error `(0, "Too many redirects")`; a 2xx response resolves with its body;
and a 3xx response without a `Location` header is not followed but rejected
with its own status code. -/
theorem ibkrRequest_redirect_policy (responses : ℕ → HttpResponse)
    (resolveUrl : String → String → String) :
    (∀ url c, c ≤ 5 → ∀ code loc,
      (responses c).statusCode = some code →
      (responses c).location = some loc →
      300 ≤ code → code < 400 →
      makeRequest responses resolveUrl url c
        = makeRequest responses resolveUrl (resolveUrl loc url) (c + 1))
    ∧ (∀ url c, 5 < c →
        makeRequest responses resolveUrl url c
          = .err 0 "Too many redirects")
    ∧ (∀ url c, c ≤ 5 → ∀ code,
        (responses c).statusCode = some code → 200 ≤ code → code < 300 →
        makeRequest responses resolveUrl url c = .ok (responses c).data)
    ∧ (∀ url c, c ≤ 5 → ∀ code,
        (responses c).statusCode = some code →
        (responses c).location = none → 300 ≤ code → code < 400 →
        makeRequest responses resolveUrl url c
          = .err code
              (if (responses c).data = "" then "Unknown error"
               else (responses c).data))
    ∧ ((∀ c ≤ 5, isRedirectResponse (responses c)) → ∀ url,
        ibkrRequest responses resolveUrl url
          = .err 0 "Too many redirects") := by
  refine ⟨fun url c hc code loc h1 h2 h3 h4 =>
      makeRequest_follow responses resolveUrl url c hc code loc h1 h2 h3 h4,
    fun url c hc => makeRequest_cap responses resolveUrl url c hc,
    fun url c hc code h1 h2 h3 =>
      makeRequest_ok responses resolveUrl url c hc code h1 h2 h3,
    fun url c hc code h1 h2 h3 h4 =>
      makeRequest_3xx_noLocation responses resolveUrl url c hc code h1 h2 h3
        h4,
    ?_⟩
  intro hred
  have key : ∀ d c url, c + d = 6 →
      makeRequest responses resolveUrl url c
        = .err 0 "Too many redirects" := by
    intro d
    induction d with
    | zero =>
      intro c url hc
      exact makeRequest_cap responses resolveUrl url c (by omega)
    | succ d ih =>
      intro c url hc
      have hc5 : c ≤ 5 := by omega
      obtain ⟨code, hsc, h3, h4, hloc⟩ := hred c hc5
      obtain ⟨loc, hl⟩ := Option.isSome_iff_exists.mp hloc
      rw [makeRequest_follow responses resolveUrl url c hc5 code loc hsc hl
        h3 h4]
      exact ih (c + 1) _ (by omega)
  intro url
  exact key 6 0 url rfl

/-- A constant stream of plain 200 responses. -/
def exOkResponses : ℕ → HttpResponse :=
  fun _ => { statusCode := some 200, location := none, data := "ok" }

/-- Witness for C8's amended statement: the very first issued request can
already be the sixth hop and is then rejected by the cap. -/
theorem ibkrRequest_redirect_policy_witness :
    makeRequest exOkResponses (fun loc _ => loc) "u" 6
      = .err 0 "Too many redirects" :=
  (ibkrRequest_redirect_policy exOkResponses (fun loc _ => loc)).2.1 "u" 6
    (by omega)

/-- An unaffordable preview yields a `skipped` result and touches neither
counter. -/
theorem execOrder_skip (b : ℚ) (po : PlannedOrder) (s : OrderScript)
    (w : WhatIfResponse) (hp : s.preview = .ok w)
    (ha : (canAffordOrder w b).canAfford = false) :
    execOrder b po s
      = { result := some
            { symbol := po.symbol
              shares := po.shares
              status := .skipped
              message := (canAffordOrder w b).reason.getD "Insufficient funds"
              orderId := none }
          placedInc := 0
          failedInc := 0
          investedInc := 0
          errorMsg := none } := by
  simp only [execOrder, hp]
  rw [if_pos ha]

/-- C5: `executeAutoInvest` succeeds iff no order failed and at least one
was placed; an unaffordable order is recorded as `skipped` and increments
neither counter, so a run of only skipped orders yields `success = false`
with zero failures and zero placements. -/
theorem executeAutoInvest_success (plan : AutoInvestPlan) (b : ℚ)
    (scripts : ℕ → OrderScript) :
    ((executeAutoInvest plan b scripts).success = true
      ↔ (executeAutoInvest plan b scripts).ordersFailed = 0
        ∧ 0 < (executeAutoInvest plan b scripts).ordersPlaced)
    ∧ (∀ (po : PlannedOrder) (s : OrderScript) (w : WhatIfResponse),
        s.preview = .ok w → (canAffordOrder w b).canAfford = false →
        (execOrder b po s).result
          = some
            { symbol := po.symbol
              shares := po.shares
              status := .skipped
              message := (canAffordOrder w b).reason.getD "Insufficient funds"
              orderId := none }
        ∧ (execOrder b po s).placedInc = 0
        ∧ (execOrder b po s).failedInc = 0)
    ∧ ((∀ k < plan.ordersToPlace.length, ∃ w,
          (scripts k).preview = .ok w
            ∧ (canAffordOrder w b).canAfford = false) →
        (executeAutoInvest plan b scripts).success = false
        ∧ (executeAutoInvest plan b scripts).ordersFailed = 0
        ∧ (executeAutoInvest plan b scripts).ordersPlaced = 0) := by
  refine ⟨by simp [executeAutoInvest], ?_, ?_⟩
  · intro po s w hp ha
    rw [execOrder_skip b po s w hp ha]
    exact ⟨rfl, rfl, rfl⟩
  · intro h
    have hall : ∀ o ∈ plan.ordersToPlace.enum.map
        (fun kp => execOrder b kp.2 (scripts kp.1)),
        o.failedInc = 0 ∧ o.placedInc = 0 := by
      intro o ho
      obtain ⟨kp, hkp, rfl⟩ := List.mem_map.1 ho
      have hk := List.mem_enum_iff_getElem?.1 hkp
      have hlen : kp.1 < plan.ordersToPlace.length :=
        (List.getElem?_eq_some.1 hk).1
      obtain ⟨w, hw, ha⟩ := h kp.1 hlen
      rw [execOrder_skip b kp.2 (scripts kp.1) w hw ha]
      exact ⟨rfl, rfl⟩
    have hfail : ((plan.ordersToPlace.enum.map
        (fun kp => execOrder b kp.2 (scripts kp.1))).map
        StepOutcome.failedInc).sum = 0 := by
      apply List.sum_eq_zero
      intro x hx
      obtain ⟨o, ho, rfl⟩ := List.mem_map.1 hx
      exact (hall o ho).1
    have hplace : ((plan.ordersToPlace.enum.map
        (fun kp => execOrder b kp.2 (scripts kp.1))).map
        StepOutcome.placedInc).sum = 0 := by
      apply List.sum_eq_zero
      intro x hx
      obtain ⟨o, ho, rfl⟩ := List.mem_map.1 hx
      exact (hall o ho).2
    have hp0 : (executeAutoInvest plan b scripts).ordersPlaced = 0 := hplace
    have hs : (executeAutoInvest plan b scripts).success
        = (decide ((executeAutoInvest plan b scripts).ordersFailed = 0)
            && decide (0 < (executeAutoInvest plan b scripts).ordersPlaced)) :=
      rfl
    refine ⟨?_, hfail, hp0⟩
    rw [hs, hp0]
    simp

/-- A planned order used by the concrete execution scenarios. -/
def exPlannedOrder : PlannedOrder :=
  { symbol := "VOO", conid := 1, shares := 1, estimatedCost := 100,
    pricePerShare := 100, priority := 1, reason := .reachingTarget 50 }

/-- A one-order plan used by the concrete execution scenarios. -/
def exPlanOne : AutoInvestPlan :=
  { totalAvailableUSD := 1000, ilsToConvert := 0, ilsToUsdRate := 1,
    ordersToPlace := [exPlannedOrder], summary := .planningToInvest 100 1 }

/-- A preview that fails the affordability check at buffer percent 1
(equity after 400 against a buffer amount of 10000). -/
def exUnaffordableW : WhatIfResponse :=
  ⟨some 100, some 1, some 10000, some 400, none⟩

/-- A script whose preview is unaffordable at buffer percent 1. -/
def exSkipScript : OrderScript :=
  { preview := .ok exUnaffordableW, place := .ok [], reply := .ok [] }

/-- Witness for C5: a run consisting of one skipped order is unsuccessful
with zero failures and zero placements. -/
theorem executeAutoInvest_success_witness :
    (executeAutoInvest exPlanOne 1 (fun _ => exSkipScript)).success = false
    ∧ (executeAutoInvest exPlanOne 1 (fun _ => exSkipScript)).ordersFailed
        = 0
    ∧ (executeAutoInvest exPlanOne 1 (fun _ => exSkipScript)).ordersPlaced
        = 0 :=
  (executeAutoInvest_success exPlanOne 1 (fun _ => exSkipScript)).2.2
    (fun _ _ => ⟨exUnaffordableW, rfl,
      by norm_num [canAffordOrder, exUnaffordableW, strTruthy]⟩)

/-- C9: with an affordable preview, a `placeOrder` response that is an
empty array, or whose first element has neither the confirmation shape
(an `id` field together with a truthy `message`) nor an `order_id` field,
or a confirmation-reply response that is empty or whose first element
lacks `order_id`, leaves the loop iteration without any `OrderResult` and
without touching either counter: the order is silently absent from the
results. -/
theorem execOrder_silent_drop (b : ℚ) (po : PlannedOrder) (s : OrderScript)
    (w : WhatIfResponse) (l : List RespItem)
    (hp : s.preview = .ok w) (ha : (canAffordOrder w b).canAfford = true)
    (hl : s.place = .ok l) :
    (l = [] → execOrder b po s = silentStep)
    ∧ (∀ first rest, l = first :: rest →
        (first.id.isSome && first.message.isSome) = false →
        first.order_id = none → execOrder b po s = silentStep)
    ∧ (∀ first rest, l = first :: rest →
        (first.id.isSome && first.message.isSome) = true →
        ∀ c cs, s.reply = .ok (c :: cs) → c.order_id = none →
        execOrder b po s = silentStep)
    ∧ (∀ first rest, l = first :: rest →
        (first.id.isSome && first.message.isSome) = true →
        s.reply = .ok [] → execOrder b po s = silentStep) := by
  have hnotfalse : ¬((canAffordOrder w b).canAfford = false) := by
    rw [ha]; simp
  refine ⟨?_, ?_, ?_, ?_⟩
  · intro hnil
    subst hnil
    simp only [execOrder, hp, hl]
    rw [if_neg hnotfalse]
  · intro first rest hcons hshape horder
    subst hcons
    simp only [execOrder, hp, hl]
    rw [if_neg hnotfalse]
    simp [hshape, horder]
  · intro first rest hcons hshape c cs hreply hcid
    subst hcons
    simp only [execOrder, hp, hl, hreply]
    rw [if_neg hnotfalse]
    simp [hshape, hcid]
  · intro first rest hcons hshape hreply
    subst hcons
    simp only [execOrder, hp, hl, hreply]
    rw [if_neg hnotfalse]
    simp [hshape]

/-- A preview that passes the affordability check at buffer percent 0. -/
def exAffordableW : WhatIfResponse :=
  ⟨some 100, some 1, some 10000, some 9900, none⟩

/-- A script whose placement response is an empty array. -/
def exSilentScript : OrderScript :=
  { preview := .ok exAffordableW, place := .ok [], reply := .ok [] }

/-- Witness for C9: an empty placement response leaves the iteration
silent. -/
theorem execOrder_silent_drop_witness :
    execOrder 0 exPlannedOrder exSilentScript = silentStep :=
  (execOrder_silent_drop 0 exPlannedOrder exSilentScript exAffordableW []
    rfl (by norm_num [canAffordOrder, exAffordableW, strTruthy]) rfl).1 rfl

/-- Total estimated cost of a list of planned orders. -/
def sumCosts (orders : List PlannedOrder) : ℚ :=
  (orders.map PlannedOrder.estimatedCost).sum

/-- The running remaining-cash ledger: the cash left after the first `k`
emitted orders have been deducted from the starting amount. -/
def remainingLedger (start : ℚ) (orders : List PlannedOrder) (k : ℕ) : ℚ :=
  start - sumCosts (orders.take k)

/-- Stable insertion permutes. -/
theorem insertByDeviationDesc_perm (x : PositionAnalysis)
    (l : List PositionAnalysis) :
    List.Perm (insertByDeviationDesc x l) (x :: l) := by
  induction l with
  | nil => rfl
  | cons y rest ih =>
    by_cases h : y.deviationPercent ≥ x.deviationPercent
    · simp only [insertByDeviationDesc, if_pos h]
      exact (ih.cons y).trans (List.Perm.swap x y rest)
    · simp only [insertByDeviationDesc, if_neg h]
      exact List.Perm.refl _

/-- The deviation sort permutes. -/
theorem sortByDeviationDesc_perm (l : List PositionAnalysis) :
    List.Perm (sortByDeviationDesc l) l := by
  induction l with
  | nil => rfl
  | cons x rest ih =>
    exact (insertByDeviationDesc_perm x (sortByDeviationDesc rest)).trans
      (ih.cons x)

/-- Every candidate surviving the underweight filter has a positive price. -/
theorem underweightPositions_price_pos (positions : List PositionAnalysis) :
    ∀ p ∈ underweightPositions positions, 0 < p.pricePerShare := by
  intro p hp
  have hp' := (sortByDeviationDesc_perm _).mem_iff.1 hp
  have := List.of_mem_filter hp'
  simp only [Bool.and_eq_true, decide_eq_true_eq] at this
  exact this.2

/-- Core invariant of the greedy walk: when every candidate has a positive
price, every emitted order has positive cost, and each emitted order's
cost is at most the cash remaining after all orders before it. -/
theorem buildOrders_spec (resolve : String → Option ℤ) :
    ∀ (ps : List PositionAnalysis) (i : ℕ) (r : ℚ),
    (∀ p ∈ ps, 0 < p.pricePerShare) →
    (∀ o ∈ (buildOrders resolve ps i r).1, 0 < o.estimatedCost)
    ∧ (∀ k o, (buildOrders resolve ps i r).1.get? k = some o →
        o.estimatedCost
          ≤ r - sumCosts ((buildOrders resolve ps i r).1.take k)) := by
  intro ps
  induction ps with
  | nil =>
    intro i r _
    constructor
    · intro o ho; simp [buildOrders] at ho
    · intro k o hko; simp [buildOrders] at hko
  | cons p rest ih =>
    intro i r hpos
    have hp : 0 < p.pricePerShare := hpos p (.head _)
    have hrest : ∀ q ∈ rest, 0 < q.pricePerShare :=
      fun q hq => hpos q (.tail _ hq)
    by_cases hskip : r < p.pricePerShare
    · have heq : buildOrders resolve (p :: rest) i r
          = buildOrders resolve rest (i + 1) r := by
        simp only [buildOrders, if_pos hskip]
      rw [heq]
      exact ih (i + 1) r hrest
    · have hple : p.pricePerShare ≤ r := not_lt.1 hskip
      set M : ℤ := Int.floor (r / p.pricePerShare) with hM
      set sb : ℤ := if M ≥ p.sharesToBuy then p.sharesToBuy else M with hsb
      have hsbM : sb ≤ M := by
        rw [hsb]
        split_ifs with h
        · omega
        · exact le_refl M
      have hcost_le : (sb : ℚ) * p.pricePerShare ≤ r := by
        have h1 : (sb : ℚ) ≤ (M : ℚ) := by exact_mod_cast hsbM
        have h2 : (M : ℚ) ≤ r / p.pricePerShare := Int.floor_le _
        calc (sb : ℚ) * p.pricePerShare
            ≤ (r / p.pricePerShare) * p.pricePerShare := by
              apply mul_le_mul_of_nonneg_right (h1.trans h2) (le_of_lt hp)
          _ = r := div_mul_cancel₀ r (ne_of_gt hp)
      by_cases hsbpos : sb > 0
      · have hcost_pos : 0 < (sb : ℚ) * p.pricePerShare := by
          apply mul_pos _ hp
          exact_mod_cast hsbpos
        by_cases hcid : resolvedConid resolve p ≠ 0
        · by_cases hbreak : r - (sb : ℚ) * p.pricePerShare < 10
          · have heq : (buildOrders resolve (p :: rest) i r).1
                = [{ symbol := p.symbol
                     conid := resolvedConid resolve p
                     shares := sb
                     estimatedCost := (sb : ℚ) * p.pricePerShare
                     pricePerShare := p.pricePerShare
                     priority := i + 1
                     reason := if M ≥ p.sharesToBuy then
                         .reachingTarget p.targetPercent
                       else .fillFraction ((sb : ℚ) * p.pricePerShare /
                         p.estimatedCostUSD * 100) }] := by
              simp only [buildOrders, if_neg hskip, ← hM, ← hsb,
                if_pos hsbpos, if_pos hcid, if_pos hbreak]
            rw [heq]
            constructor
            · intro o ho
              rw [List.mem_singleton.1 ho]
              exact hcost_pos
            · intro k o hko
              match k, hko with
              | 0, hko =>
                simp only [List.get?, Option.some.injEq] at hko
                subst hko
                simpa [sumCosts] using hcost_le
          · obtain ⟨iha, ihb⟩ :=
              ih (i + 1) (r - (sb : ℚ) * p.pricePerShare) hrest
            have heq : (buildOrders resolve (p :: rest) i r).1
                = { symbol := p.symbol
                    conid := resolvedConid resolve p
                    shares := sb
                    estimatedCost := (sb : ℚ) * p.pricePerShare
                    pricePerShare := p.pricePerShare
                    priority := i + 1
                    reason := if M ≥ p.sharesToBuy then
                        .reachingTarget p.targetPercent
                      else .fillFraction ((sb : ℚ) * p.pricePerShare /
                        p.estimatedCostUSD * 100) } ::
                  (buildOrders resolve rest (i + 1)
                    (r - (sb : ℚ) * p.pricePerShare)).1 := by
              simp only [buildOrders, if_neg hskip, ← hM, ← hsb,
                if_pos hsbpos, if_pos hcid, if_neg hbreak]
            rw [heq]
            constructor
            · intro o ho
              rcases List.mem_cons.1 ho with h | h
              · rw [h]; exact hcost_pos
              · exact iha o h
            · intro k o hko
              match k, hko with
              | 0, hko =>
                simp only [List.get?, Option.some.injEq] at hko
                subst hko
                simpa [sumCosts] using hcost_le
              | k + 1, hko =>
                have h2 := ihb k o hko
                rw [List.take_succ_cons]
                simp only [sumCosts, List.map_cons, List.sum_cons]
                simp only [sumCosts] at h2
                linarith
        · rw [not_not] at hcid
          by_cases hlow : r < 10
          · have heq : (buildOrders resolve (p :: rest) i r).1 = [] := by
              simp only [buildOrders, if_neg hskip, ← hM, ← hsb,
                if_pos hsbpos, hcid, if_pos hlow]
              simp
            rw [heq]
            constructor
            · intro o ho; simp at ho
            · intro k o hko; simp at hko
          · have heq : buildOrders resolve (p :: rest) i r
                = buildOrders resolve rest (i + 1) r := by
              simp only [buildOrders, if_neg hskip, ← hM, ← hsb,
                if_pos hsbpos, hcid, if_neg hlow]
              simp
            rw [heq]
            exact ih (i + 1) r hrest
      · by_cases hlow : r < 10
        · have heq : (buildOrders resolve (p :: rest) i r).1 = [] := by
            simp only [buildOrders, if_neg hskip, ← hM, ← hsb,
              if_neg hsbpos, if_pos hlow]
          rw [heq]
          constructor
          · intro o ho; simp at ho
          · intro k o hko; simp at hko
        · have heq : buildOrders resolve (p :: rest) i r
              = buildOrders resolve rest (i + 1) r := by
            simp only [buildOrders, if_neg hskip, ← hM, ← hsb,
              if_neg hsbpos, if_neg hlow]
          rw [heq]
          exact ih (i + 1) r hrest

/-- Taking one more order never decreases the total cost of the prefix,
when all costs are positive. -/
theorem sumCosts_take_mono (l : List PlannedOrder)
    (hpos : ∀ o ∈ l, 0 < o.estimatedCost) (k : ℕ) :
    sumCosts (l.take k) ≤ sumCosts (l.take (k + 1)) := by
  rcases h : l.get? k with _ | o
  · have hlen : l.length ≤ k := List.get?_eq_none.1 h
    rw [List.take_of_length_le hlen,
      List.take_of_length_le (hlen.trans (Nat.le_succ k))]
  · have h' : l[k]? = some o := by
      rw [← List.get?_eq_getElem?]
      exact h
    have hsplit : l.take (k + 1) = l.take k ++ [o] := by
      rw [List.take_succ, h']
      rfl
    have hco := hpos o (List.get?_mem h)
    rw [hsplit]
    simp only [sumCosts, List.map_append, List.sum_append, List.map_cons,
      List.map_nil, List.sum_cons, List.sum_nil]
    linarith

/-- The running remaining-cash ledger invariant of C1: the ledger starts at
the available cash, never increases from one emitted order to the next,
never becomes negative, and every emitted order's estimated cost is at most
the ledger value at the moment its candidate was considered. -/
def cashLedgerInvariant (start : ℚ) (orders : List PlannedOrder) : Prop :=
  remainingLedger start orders 0 = start
  ∧ (∀ k, remainingLedger start orders (k + 1)
      ≤ remainingLedger start orders k)
  ∧ (∀ k, 0 ≤ remainingLedger start orders k)
  ∧ (∀ k o, orders.get? k = some o →
      o.estimatedCost ≤ remainingLedger start orders k)

/-- The invariant follows from a non-negative start, positive costs, and
the per-index cost bound. -/
theorem cashLedgerInvariant_of (start : ℚ) (orders : List PlannedOrder)
    (hstart : 0 ≤ start)
    (hcost : ∀ o ∈ orders, 0 < o.estimatedCost)
    (hbound : ∀ k o, orders.get? k = some o →
        o.estimatedCost ≤ start - sumCosts (orders.take k)) :
    cashLedgerInvariant start orders := by
  have hmono : ∀ k, remainingLedger start orders (k + 1)
      ≤ remainingLedger start orders k := by
    intro k
    have := sumCosts_take_mono orders hcost k
    simp only [remainingLedger]
    linarith
  have hnonneg : ∀ k, 0 ≤ remainingLedger start orders k := by
    intro k
    induction k with
    | zero => simpa [remainingLedger, sumCosts] using hstart
    | succ k ihk =>
      rcases h : orders.get? k with _ | o
      · have hlen : orders.length ≤ k := List.get?_eq_none.1 h
        have heq : remainingLedger start orders (k + 1)
            = remainingLedger start orders k := by
          simp only [remainingLedger]
          rw [List.take_of_length_le hlen,
            List.take_of_length_le (hlen.trans (Nat.le_succ k))]
        rw [heq]
        exact ihk
      · have h' : orders[k]? = some o := by
          rw [← List.get?_eq_getElem?]
          exact h
        have hsplit : orders.take (k + 1) = orders.take k ++ [o] := by
          rw [List.take_succ, h']
          rfl
        have hb := hbound k o h
        simp only [remainingLedger, hsplit, sumCosts, List.map_append,
          List.sum_append, List.map_cons, List.map_nil, List.sum_cons,
          List.sum_nil]
        simp only [sumCosts] at hb
        simp only [remainingLedger, sumCosts] at ihk
        linarith
  exact ⟨by simp [remainingLedger, sumCosts], hmono, hnonneg,
    fun k o hko => hbound k o hko⟩

/-- C1: for every analysis, buffer percent and conid resolution, the plan
builder's greedy walk maintains a remaining-cash ledger that starts at the
plan's available cash, is monotonically non-increasing, never becomes
negative, and every emitted `PlannedOrder`'s `estimatedCost` is at most the
remaining cash at the moment its candidate was considered. -/
theorem createAutoInvestPlan_cash_ledger (analysis : PortfolioAnalysis)
    (bufferPercent : ℚ) (resolve : String → Option ℤ) :
    cashLedgerInvariant
      (createAutoInvestPlan analysis bufferPercent resolve).totalAvailableUSD
      (createAutoInvestPlan analysis bufferPercent resolve).ordersToPlace := by
  by_cases h : analysis.cashUSD + analysis.cashILS * analysis.ilsToUsdRate
      - (analysis.cashUSD + analysis.cashILS * analysis.ilsToUsdRate)
        * bufferPercent ≤ 0
  · have h1 : (createAutoInvestPlan analysis bufferPercent
        resolve).totalAvailableUSD = 0 := by
      simp only [createAutoInvestPlan, if_pos h]
    have h2 : (createAutoInvestPlan analysis bufferPercent
        resolve).ordersToPlace = [] := by
      simp only [createAutoInvestPlan, if_pos h]
    rw [h1, h2]
    apply cashLedgerInvariant_of
    · exact le_refl 0
    · intro o ho
      simp at ho
    · intro k o hko
      simp at hko
  · have h1 : (createAutoInvestPlan analysis bufferPercent
        resolve).totalAvailableUSD
        = analysis.cashUSD + analysis.cashILS * analysis.ilsToUsdRate
          - (analysis.cashUSD + analysis.cashILS * analysis.ilsToUsdRate)
            * bufferPercent := by
      simp only [createAutoInvestPlan, if_neg h]
    have h2 : (createAutoInvestPlan analysis bufferPercent
        resolve).ordersToPlace
        = (buildOrders resolve (underweightPositions analysis.positions) 0
            (analysis.cashUSD + analysis.cashILS * analysis.ilsToUsdRate
              - (analysis.cashUSD + analysis.cashILS * analysis.ilsToUsdRate)
                * bufferPercent)).1 := by
      simp only [createAutoInvestPlan, if_neg h]
    rw [h1, h2]
    obtain ⟨ha, hb⟩ := buildOrders_spec resolve
      (underweightPositions analysis.positions) 0
      (analysis.cashUSD + analysis.cashILS * analysis.ilsToUsdRate
        - (analysis.cashUSD + analysis.cashILS * analysis.ilsToUsdRate)
          * bufferPercent)
      (underweightPositions_price_pos analysis.positions)
    apply cashLedgerInvariant_of
    · linarith [not_le.1 h]
    · exact ha
    · exact hb

/-- A concrete underweight candidate: target 50%, deviation +10, price
$100, 3 shares to buy. -/
def exUnderweightPA : PositionAnalysis :=
  { symbol := "VOO", conid := 7, currentShares := 0, currentValueUSD := 0,
    currentPercent := 40, targetPercent := 50, deviationPercent := 10,
    sharesToBuy := 3, estimatedCostUSD := 300, pricePerShare := 100 }

/-- A concrete analysis with $1000 cash and the one underweight
candidate. -/
def exPlanAnalysis : PortfolioAnalysis :=
  { totalValueUSD := 2000, cashUSD := 1000, cashILS := 0, ilsToUsdRate := 1,
    positions := [exUnderweightPA] }

/-- Witness for C1: on the concrete plan the ledger after the first
emitted order is still non-negative. -/
theorem createAutoInvestPlan_cash_ledger_witness :
    0 ≤ remainingLedger
      (createAutoInvestPlan exPlanAnalysis 0 (fun _ => none)).totalAvailableUSD
      (createAutoInvestPlan exPlanAnalysis 0 (fun _ => none)).ordersToPlace
      1 :=
  (createAutoInvestPlan_cash_ledger exPlanAnalysis 0 (fun _ => none)).2.2.1 1

/-- The order the greedy walk emits for candidate `p` at loop index `i`
with remaining cash `r`: `min(maxAffordableShares, sharesToBuy)` shares, a
"reaching target" reason on a full fill and a "partial fill" reason
otherwise. -/
def greedyStepOrder (resolve : String → Option ℤ) (p : PositionAnalysis)
    (i : ℕ) (r : ℚ) : PlannedOrder :=
  { symbol := p.symbol
    conid := resolvedConid resolve p
    shares := min (Int.floor (r / p.pricePerShare)) p.sharesToBuy
    estimatedCost :=
      (min (Int.floor (r / p.pricePerShare)) p.sharesToBuy : ℚ)
        * p.pricePerShare
    pricePerShare := p.pricePerShare
    priority := i + 1
    reason :=
      if p.sharesToBuy ≤ Int.floor (r / p.pricePerShare) then
        OrderReason.reachingTarget p.targetPercent
      else
        OrderReason.fillFraction
          ((min (Int.floor (r / p.pricePerShare)) p.sharesToBuy : ℚ)
            * p.pricePerShare / p.estimatedCostUSD * 100) }

/-- C4: one step of the greedy walk.  A candidate whose price exceeds the
remaining cash is skipped and the walk continues with the next candidate
at the next loop index; otherwise (for a positively-priced, underweight,
conid-resolvable candidate) the emitted order takes
`min(floor(remainingCash / price), sharesToBuy)` shares, with a
"reaching target" reason exactly on a full fill, and the walk stops right
after the deduction once the remaining cash has dropped below the $10
threshold. -/
theorem buildOrders_step (resolve : String → Option ℤ)
    (p : PositionAnalysis) (rest : List PositionAnalysis) (i : ℕ) (r : ℚ) :
    (r < p.pricePerShare →
      buildOrders resolve (p :: rest) i r
        = buildOrders resolve rest (i + 1) r)
    ∧ (p.pricePerShare ≤ r → 0 < p.pricePerShare → 0 < p.sharesToBuy →
        resolvedConid resolve p ≠ 0 →
        buildOrders resolve (p :: rest) i r
          = if r - (min (Int.floor (r / p.pricePerShare)) p.sharesToBuy : ℚ)
                * p.pricePerShare < 10 then
              ([greedyStepOrder resolve p i r],
                r - (min (Int.floor (r / p.pricePerShare)) p.sharesToBuy : ℚ)
                  * p.pricePerShare)
            else
              (greedyStepOrder resolve p i r ::
                (buildOrders resolve rest (i + 1)
                  (r - (min (Int.floor (r / p.pricePerShare))
                    p.sharesToBuy : ℚ) * p.pricePerShare)).1,
                (buildOrders resolve rest (i + 1)
                  (r - (min (Int.floor (r / p.pricePerShare))
                    p.sharesToBuy : ℚ) * p.pricePerShare)).2)) := by
  constructor
  · intro hskip
    simp only [buildOrders, if_pos hskip]
  · intro hple hp hsb hcid
    have hM1 : (1 : ℤ) ≤ Int.floor (r / p.pricePerShare) := by
      rw [Int.le_floor]
      rw [show ((1 : ℤ) : ℚ) = 1 from rfl]
      rw [le_div_iff₀ hp]
      simpa using hple
    have hmin : (if Int.floor (r / p.pricePerShare) ≥ p.sharesToBuy
        then p.sharesToBuy else Int.floor (r / p.pricePerShare))
        = min (Int.floor (r / p.pricePerShare)) p.sharesToBuy := by
      split_ifs with hge <;> omega
    have hminpos :
        0 < min (Int.floor (r / p.pricePerShare)) p.sharesToBuy := by
      omega
    simp only [buildOrders, if_neg (not_lt.2 hple), hmin, ge_iff_le,
      if_pos hminpos, if_pos hcid, greedyStepOrder]
    simp only [Int.cast_min]

/-- Witness for C4: a candidate costing $100 per share is skipped when
only $50 remains, the walk continuing with the rest of the list. -/
theorem buildOrders_step_witness :
    buildOrders (fun _ => none) [exUnderweightPA] 0 50
      = buildOrders (fun _ => none) [] 1 50 :=
  (buildOrders_step (fun _ => none) exUnderweightPA [] 0 50).1
    (by norm_num [exUnderweightPA])

end AutoInvest

